import Mathlib

/-!
A verification development for the `judwhite/httplog` repository.

The definitions below are a shallow embedding of the Go sources:

* `acceptsGzip` (and its helpers `goIsSpace`, `trimSpace`, `utf8Bytes`,
  `skipSpacesIdx`, `gzScan`, `gzSeg`) embed the hand-rolled
  `Accept-Encoding` scanner `acceptsGzip` from
  `vendor/github.com/judwhite/logrjack/entry.go` (the same function,
  with the same test table, lives in the `httplog` package itself).
  The Go code trims the header rune-wise (`strings.TrimSpace`) and then
  indexes its UTF-8 bytes, so the embedding does the same.
* `goContains`, `bodyHasGzipMagicHeader`, `gzipTypes`, `gzipMinLength`
  and `gzDecision` embed the response-dispatch compression decision of
  `Server.Handle` in `server.go`.
* `Handle` embeds the per-request control flow of `Server.Handle`
  (admission check, panic recovery, response dispatch, log emission,
  connection counting) as a function from an abstract request
  environment to the ordered list of observable events.
* `newEntryGo` embeds `Server.newEntry`.

Theorems about these definitions settle the claims of the
specification; each claim theorem carries a doc comment naming it.
-/

/-- Go `unicode.IsSpace` (the Unicode White_Space property), as used
by `strings.TrimSpace` on the header value. -/
def goIsSpace (c : Char) : Bool :=
  c = ' ' || c = '\t' || c = '\n' || c = '\x0b' || c = '\x0c' || c = '\r' ||
  c.toNat = 0x85 || c.toNat = 0xA0 || c.toNat = 0x1680 ||
  (0x2000 ≤ c.toNat && c.toNat ≤ 0x200A) ||
  c.toNat = 0x2028 || c.toNat = 0x2029 || c.toNat = 0x202F ||
  c.toNat = 0x205F || c.toNat = 0x3000

/-- Drop leading Go whitespace from a character list. -/
def trimLeft : List Char → List Char
  | [] => []
  | c :: cs => if goIsSpace c then trimLeft cs else c :: cs

/-- Go `strings.TrimSpace`: drop leading and trailing whitespace
(rune-wise, as Go does). -/
def trimSpace (s : List Char) : List Char :=
  (trimLeft ((trimLeft s).reverse)).reverse

/-- The UTF-8 encoding of one character.  Go strings are UTF-8 byte
sequences and `acceptsGzip` indexes bytes; `Char` carries a valid
Unicode scalar value, so this is Go's `utf8.EncodeRune`. -/
def utf8Encode (c : Char) : List Nat :=
  let n := c.toNat
  if n < 0x80 then [n]
  else if n < 0x800 then [0xC0 + n / 0x40, 0x80 + n % 0x40]
  else if n < 0x10000 then
    [0xE0 + n / 0x1000, 0x80 + n / 0x40 % 0x40, 0x80 + n % 0x40]
  else
    [0xF0 + n / 0x40000, 0x80 + n / 0x1000 % 0x40, 0x80 + n / 0x40 % 0x40,
     0x80 + n % 0x40]

/-- The UTF-8 bytes of a character list (the Go string's bytes). -/
def utf8Bytes (l : List Char) : List Nat := l.flatMap utf8Encode

/-- Number of leading space bytes (`0x20`) of a byte list. -/
def countLeadingSpaces : List Nat → Nat
  | [] => 0
  | b :: bs => if b = 32 then countLeadingSpaces bs + 1 else 0

/-- The local `skipSpaces` closure of Go `acceptsGzip`: starting from
byte index `k`, advance past space bytes while staying below the
segment end `e`; returns the new index. -/
def skipSpacesIdx (s : List Nat) (k e : Nat) : Nat :=
  k + countLeadingSpaces ((s.drop k).take (e - k))

/-- One comma-delimited segment `[j, e)` of the byte scan in Go
`acceptsGzip`.  `some b` models `return b`; `none` models `continue`
(the token is at least 4 bytes long and is not `gzip`).  Byte values:
`','` = 44, `';'` = 59, `'q'` = 113, `'='` = 61, `'0'` = 48,
`'.'` = 46, `"gzip"` = 103, 122, 105, 112.  The out-of-range reads
that Go would panic on are unreachable for trimmed inputs (the last
byte is never a space); they are given the default 32 here. -/
def gzSeg (s : List Nat) (j e : Nat) : Option Bool :=
  let k := skipSpacesIdx s j e
  if k + 4 > e then some false
  else if (s.drop k).take 4 ≠ [103, 122, 105, 112] then none
  else if k + 4 = e then some true
  else
    let m := skipSpacesIdx s (k + 4) e
    if s.getD m 32 = 44 then some true
    else if s.getD m 32 ≠ 59 then some false
    else
      let q := skipSpacesIdx s (m + 1) e
      if q + 2 ≥ e then some false
      else if s.getD q 32 ≠ 113 ∨ s.getD (q + 1) 32 ≠ 61 then some false
      else some (((s.drop (q + 2)).take (e - (q + 2))).any
        (fun b => b ≠ 48 && b ≠ 46))

/-- The index loop of Go `acceptsGzip` over the trimmed header's
bytes: scan index `i`, current segment start `j`.  A segment is
processed when `s[i] = ','` or `i` is the last index (in which case
the segment end is pushed one past the end, mirroring the `i++` in
the Go source).  The `fuel` argument makes the recursion structural;
`s.length - i` steps always suffice. -/
def gzScan (s : List Nat) : Nat → Nat → Nat → Bool
  | 0, _, _ => false
  | fuel + 1, i, j =>
    if i < s.length then
      if s.getD i 32 = 44 ∨ i = s.length - 1 then
        let e := if i = s.length - 1 then i + 1 else i
        (gzSeg s j e).getD (gzScan s fuel (e + 1) (e + 1))
      else
        gzScan s fuel (i + 1) j
    else false

/-- Go `acceptsGzip` from `vendor/github.com/judwhite/logrjack/entry.go`:
whether an `Accept-Encoding` header value accepts the gzip coding.
The header is trimmed rune-wise and then scanned byte-wise, exactly
as the Go code indexes the string's UTF-8 bytes. -/
def acceptsGzip (acceptEncoding : String) : Bool :=
  let t := utf8Bytes (trimSpace acceptEncoding.toList)
  if t.length = 0 then false
  else gzScan t (t.length + 1) 0 0

/-- The bytes `gzip` occur in `b` as a delimited coding token: at a
position preceded by nothing, a comma or a space, and followed by
nothing, a comma, a space or a `;` parameter — i.e. `b` contains a
comma-separated segment whose coding token is exactly `gzip`. -/
def delimitedGzip (b : List Nat) : Bool :=
  (List.range b.length).any fun k =>
    ((b.drop k).take 4 == [103, 122, 105, 112]) &&
    (k == 0 || b.getD (k - 1) 32 == 44 || b.getD (k - 1) 32 == 32) &&
    (k + 4 == b.length || b.getD (k + 4) 32 == 44 || b.getD (k + 4) 32 == 32 ||
      b.getD (k + 4) 32 == 59)

example : acceptsGzip "" = false := by decide
example : acceptsGzip "gzip" = true := by decide
example : acceptsGzip "gzip, deflate" = true := by decide
example : acceptsGzip "deflate, gzip" = true := by decide
example : acceptsGzip "gzip;q=0.8" = true := by decide
example : acceptsGzip "gzip;q=0" = false := by decide
example : acceptsGzip "gzip;q=0.000" = false := by decide
example : acceptsGzip "gzippy" = false := by decide
example : acceptsGzip "             none" = false := by decide
example : acceptsGzip " gzip " = true := by decide
example : acceptsGzip " gzip, deflate, sdch, br " = true := by decide
example : acceptsGzip "FFFF, FFFFFFF" = false := by decide
example : acceptsGzip "deflate,gzip,x-gzip,identity,*;q=0.001" = true := by decide
example : acceptsGzip "deflate;q=1.0, compress;q=0.5" = false := by decide
example : acceptsGzip "deflate;q=1.0, compress;q=0.5, gzip;q=0.5" = true := by decide
example : acceptsGzip "gzip, deflate, x-gzip, identity; q=0.9" = true := by decide
example : acceptsGzip "gzip,deflate," = true := by decide
example : acceptsGzip "gzip; q=0, deflate, sdch, br " = false := by decide
example : acceptsGzip "gzip; q=0.001, deflate, sdch, br " = true := by decide
example : acceptsGzip "identity, gzip;, deflate" = false := by decide
example : acceptsGzip "identity, gzipp, deflate" = false := by decide
example : acceptsGzip "identity,gzip;q" = false := by decide
example : acceptsGzip "identity,gzip;q=" = false := by decide
example : acceptsGzip "identity,gzip;q=0.001" = true := by decide
example : acceptsGzip "identity,gzip; q=0,deflate" = false := by decide
example : acceptsGzip "identity;q=1, *;q=0" = false := by decide
example : acceptsGzip "x-gzip, gzip, deflate" = true := by decide
example : acceptsGzip "gzips   ," = false := by decide
example : acceptsGzip "gzip   ," = true := by decide
example : acceptsGzip "gzip;Q=1" = false := by decide
example : acceptsGzip "gzip;q:1" = false := by decide
example : acceptsGzip "gzi" = false := by decide
example : acceptsGzip "gzi,br" = false := by decide
example : acceptsGzip "gzi,br;q=1," = false := by decide
example : acceptsGzip "br;q=1,gzip" = true := by decide
example : acceptsGzip "br;q=1,gzip;q=0" = false := by decide
example : acceptsGzip "gzip          s" = false := by decide
example : acceptsGzip "br,gzip" = false := by decide
example : acceptsGzip "gzip;q=x" = true := by decide
example : acceptsGzip "gzippy, deflate" = false := by decide
example : acceptsGzip "x-gzip" = false := by decide
example : acceptsGzip "gzippy,gzip" = false := by decide
example : acceptsGzip "gzip;q=00" = false := by decide
example : acceptsGzip "gzip;q=0x" = true := by decide
example : acceptsGzip "gzip\xA0" = true := by decide
example : acceptsGzip "\xA0gzip" = true := by decide
example : acceptsGzip "éé,gzip" = true := by decide
example : acceptsGzip "é,gzip" = false := by decide

/-! ## Response headers (Go `http.Header` restricted to what `Handle` uses) -/

/-- Response headers as an association list; Go `http.Header.Get`
returns the first value set for the key, or `""`. -/
abbrev Headers := List (String × String)

def hdrGet (h : Headers) (k : String) : String :=
  ((h.find? (fun p => p.1 == k)).map Prod.snd).getD ""

def hdrAdd (h : Headers) (k v : String) : Headers := h ++ [(k, v)]

def hdrDel (h : Headers) (k : String) : Headers :=
  h.filter (fun p => !(p.1 == k))

def hdrSet (h : Headers) (k v : String) : Headers :=
  hdrDel h k ++ [(k, v)]

/-! ## The compression decision of `Server.Handle` (server.go) -/

/-- Go `strings.Contains`: substring test by scanning every suffix. -/
def containsLoop : List Char → List Char → Bool
  | [], needle => needle.isEmpty
  | c :: t, needle => needle.isPrefixOf (c :: t) || containsLoop t needle

/-- Go `strings.Contains(hay, needle)`. -/
def goContains (hay needle : String) : Bool :=
  containsLoop hay.toList needle.toList

/-- server.go: `const gzipMinLength = 1000`. -/
def gzipMinLength : Nat := 1000

/-- server.go: the `gzipTypes` allow-list of compressible content types. -/
def gzipTypes : List String :=
  ["application/javascript", "application/json", "application/xml",
   "font/opentype", "image/svg+xml", "image/x-icon",
   "text/css", "text/html", "text/plain"]

/-- server.go: `len(body) > 1 && body[0] == 0x1f && body[1] == 0x8b`.
Bodies are byte lists (each entry `< 256`). -/
def bodyHasGzipMagicHeader (body : List Nat) : Bool :=
  decide (1 < body.length) && (body.getD 0 0 == 0x1f) && (body.getD 1 0 == 0x8b)

/-- How the resolved body is written to the client. -/
inductive WriteMode
  /-- `w.Write(body)`: the bytes go out unchanged. -/
  | plain
  /-- the body is compressed through a gzip writer on the way out. -/
  | compressGz
  /-- the body is decompressed through a gzip reader on the way out. -/
  | gunzip
  deriving DecidableEq

/-- The compression decision of `Server.Handle` for a non-empty
resolved body: given the body bytes, the request's `Accept-Encoding`
value and the response headers, return the write mode and the updated
headers.  Mirrors server.go: `gzipOK := strings.Contains(...)`; a body
with the gzip magic bytes is decompressed (and `Content-Encoding`
deleted) when `gzipOK` is false, else sent as-is with
`Content-Encoding: gzip`; otherwise it is compressed only when
`gzipOK`, the length exceeds `gzipMinLength` and the `Content-Type`
is in `gzipTypes`. -/
def gzDecision (body : List Nat) (acceptEncoding : String) (h : Headers) :
    WriteMode × Headers :=
  let gzipOK := goContains acceptEncoding "gzip"
  if bodyHasGzipMagicHeader body then
    if !gzipOK then (WriteMode.gunzip, hdrDel h "Content-Encoding")
    else (WriteMode.plain, hdrSet h "Content-Encoding" "gzip")
  else if gzipOK = true ∧ gzipMinLength < body.length ∧
      hdrGet h "Content-Type" ∈ gzipTypes then
    (WriteMode.compressGz, hdrSet h "Content-Encoding" "gzip")
  else (WriteMode.plain, h)

/-! ## The per-request control flow of `Server.Handle` -/

/-- Call-stack capture sites, abstracting the stack frames a real
capture would record. -/
inductive Site
  /-- `err = withStack(err)` right after the handler returns. -/
  | handlerReturn
  /-- `panicErr = withStack(panicErr)` inside the deferred recover. -/
  | panicRecovery
  deriving DecidableEq

/-- A reportable Go error: its message and the call stack attached to
it, if any. -/
structure GoErr where
  msg : String
  stack : Option Site
  deriving DecidableEq

/-- Modelled from the spec: `withStack` on a non-nil error (the
repository file defining `withStack`/`errorStack` is not under `src/`;
only its callers and tests are).  Per the spec a Reportable Error
carries "an ordered sequence of call-site frames" when "explicitly
requested"; the repository's own tests (`TestAddAllWithStack`) show
that an error already carrying a stack keeps its original one. -/
def withStackE (e : GoErr) (site : Site) : GoErr :=
  ⟨e.msg, some (e.stack.getD site)⟩

/-- Modelled from the spec: `withStack` as applied by `Server.Handle`
to a possibly-nil error; a nil error stays nil (the code applies it to
the handler's error on every non-panic request). -/
def withStack : Option GoErr → Site → Option GoErr
  | none, _ => none
  | some e, site => some (withStackE e site)

/-- The handler's `Response.Body`.  A value that is neither a string
nor raw bytes goes through the JSON serializer, an external
collaborator whose outcome (bytes or a marshal error) is part of the
environment. -/
inductive GoBody
  | bNil
  | bStr (bytes : List Nat)
  | bBytes (bytes : List Nat)
  | bOther (marshal : Except String (List Nat))

/-- The handler's return value: `Response` plus the returned error. -/
structure HandlerRet where
  body : GoBody
  status : Nat
  headers : Headers
  err : Option GoErr

/-- What `handler.Func(r, logEntry)` does for this request. -/
inductive HandlerOutcome
  | ret (r : HandlerRet)
  | panics (msg : String)

/-- The environment of one request: the server's `stopped` flag at
admission, the handler's behavior, the request's `Accept-Encoding`
header, and the outcomes of the two fallible collaborators
(`gzip.NewReader` on a gzip-magic body, and the final body write). -/
structure ReqEnv where
  stopped : Bool
  outcome : HandlerOutcome
  acceptEncoding : String
  gunzipErr : Option String
  writeErr : Option String

/-- Observable events of one request, in order.  Byte counts of the
wire-level writes are abstracted away; `writeBody` records the mode
chosen by `gzDecision`. -/
inductive Ev
  | incConn
  | decConn
  | callHandler
  | writeHeader (status : Nat)
  | writeBody (mode : WriteMode)
  | writeLog (status : Nat) (err : Option GoErr)
  deriving DecidableEq

/-- The tail of the deferred function in `Server.Handle` when no panic
is pending: emit the single log record (`go WriteHTTPLog ...`), then
release the connection slot iff `decOpenConnections` was set. -/
def deferNormal (evs : List Ev) (status : Nat) (err : Option GoErr) (dec : Bool) :
    List Ev :=
  evs ++ [Ev.writeLog status err] ++ (if dec then [Ev.decConn] else [])

/-- The deferred function in `Server.Handle` when a panic was
recovered: force status 500 and write it, attach a stack to the panic
error at the recovery site, merge with a pending handler error via
`fmt.Errorf("handler: %v\npanic: %v", ...)` (which, as the source's
own TODO notes, wipes the stack trace), then log once and release. -/
def deferRecover (evs : List Ev) (err : Option GoErr) (panicMsg : String) (dec : Bool) :
    List Ev :=
  let panicErr := withStackE ⟨panicMsg, none⟩ Site.panicRecovery
  let merged : GoErr :=
    match err with
    | none => panicErr
    | some e => ⟨"handler: " ++ e.msg ++ "\npanic: " ++ panicErr.msg, none⟩
  evs ++ [Ev.writeHeader 500, Ev.writeLog 500 (some merged)] ++
    (if dec then [Ev.decConn] else [])

/-- Resolution of a non-nil handler body (server.go): a string body
defaults `Content-Type` to `text/plain` when unset; raw bytes pass
through; any other value uses the serializer's outcome, and on
success sets `Content-Type: application/json` (a marshal error
panics before that header is set). -/
def resolveBody : GoBody → Headers → Except String (List Nat × Headers)
  | GoBody.bNil, h => Except.ok ([], h)
  | GoBody.bStr bs, h =>
      Except.ok (bs, if hdrGet h "Content-Type" = "" then
        hdrSet h "Content-Type" "text/plain" else h)
  | GoBody.bBytes bs, h => Except.ok (bs, h)
  | GoBody.bOther (Except.error m), _ => Except.error m
  | GoBody.bOther (Except.ok bs), h =>
      Except.ok (bs, hdrSet h "Content-Type" "application/json")

/-- Embedding of the function returned by `Server.Handle` (server.go):
the ordered list of observable events for one request.  Mirrors the
source: the stopped check (which returns with `status = 503` but
without writing a header and with a nil error), connection counting,
handler invocation, header/body resolution, the compression decision,
and the deferred recover/log/release. -/
def Handle (env : ReqEnv) : List Ev :=
  if env.stopped then
    deferNormal [] 503 none false
  else
    let evs := [Ev.incConn, Ev.callHandler]
    match env.outcome with
    | HandlerOutcome.panics pmsg => deferRecover evs none pmsg true
    | HandlerOutcome.ret r =>
      let err := withStack r.err Site.handlerReturn
      let status := if r.status = 0 then 200 else r.status
      let h0 := r.headers.foldl (fun m p => hdrAdd m p.1 p.2) []
      match r.body with
      | GoBody.bNil => deferNormal (evs ++ [Ev.writeHeader status]) status err true
      | body =>
        match resolveBody body h0 with
        | Except.error m => deferRecover evs err m true
        | Except.ok (bytes, h1) =>
          if bytes.length = 0 then
            deferNormal (evs ++ [Ev.writeHeader status]) status err true
          else
            let mode := (gzDecision bytes env.acceptEncoding h1).1
            match mode, env.gunzipErr with
            | WriteMode.gunzip, some m => deferRecover evs err m true
            | _, _ =>
              let evs2 := evs ++ [Ev.writeHeader status, Ev.writeBody mode]
              match env.writeErr with
              | some m => deferRecover evs2 err m true
              | none => deferNormal evs2 status err true

/-! ## `Server.newEntry` -/

/-- A log entry implementation: either one produced by a user-set
`NewLogEntry` factory, or the built-in `fallbackLogger`. -/
inductive EntryImpl
  | custom (id : Nat)
  | fallback
  deriving DecidableEq

/-- Embedding of `Server.newEntry` (server.go): `field` is the current
value of `svr.NewLogEntry`; the result is the returned entry together
with the field's new value.  The Go method recurses after installing
the fallback factory; `fuel` makes that recursion structural, and
`none` models the recursion running out (never reached: two steps
always suffice). -/
def newEntryGo : Option (Unit → EntryImpl) → Nat →
    Option (EntryImpl × Option (Unit → EntryImpl))
  | _, 0 => none
  | some f, _ + 1 => some (f (), some f)
  | none, fuel + 1 =>
    let installed : Option (Unit → EntryImpl) := some fun _ => EntryImpl.fallback
    match newEntryGo installed fuel with
    | some (e, fld) => some (e, fld)
    | none => none

/-! ## Event counting helpers -/

/-- Is this event a `WriteHTTPLog` invocation? -/
def isLogEv : Ev → Bool
  | Ev.incConn => false
  | Ev.decConn => false
  | Ev.callHandler => false
  | Ev.writeHeader _ => false
  | Ev.writeBody _ => false
  | Ev.writeLog _ _ => true

/-- Is this event an `openConnections` increment? -/
def isIncEv : Ev → Bool
  | Ev.incConn => true
  | Ev.decConn => false
  | Ev.callHandler => false
  | Ev.writeHeader _ => false
  | Ev.writeBody _ => false
  | Ev.writeLog _ _ => false

/-- Is this event an `openConnections` decrement? -/
def isDecEv : Ev → Bool
  | Ev.incConn => false
  | Ev.decConn => true
  | Ev.callHandler => false
  | Ev.writeHeader _ => false
  | Ev.writeBody _ => false
  | Ev.writeLog _ _ => false

/-- The number of log records emitted in an event list. -/
def countLog (evs : List Ev) : Nat := (evs.filter isLogEv).length

/-- The number of `openConnections` increments in an event list. -/
def countInc (evs : List Ev) : Nat := (evs.filter isIncEv).length

/-- The number of `openConnections` decrements in an event list. -/
def countDec (evs : List Ev) : Nat := (evs.filter isDecEv).length

/-! ## Helper lemmas -/

theorem countLog_deferNormal (evs : List Ev) (st : Nat) (e : Option GoErr) (d : Bool) :
    countLog (deferNormal evs st e d) = countLog evs + 1 := by
  cases d <;> simp [deferNormal, countLog, List.filter_append, isLogEv]

theorem countLog_deferRecover (evs : List Ev) (e : Option GoErr) (m : String) (d : Bool) :
    countLog (deferRecover evs e m d) = countLog evs + 1 := by
  cases d <;> simp [deferRecover, countLog, List.filter_append, isLogEv]

theorem countInc_deferNormal (evs : List Ev) (st : Nat) (e : Option GoErr) (d : Bool) :
    countInc (deferNormal evs st e d) = countInc evs := by
  cases d <;> simp [deferNormal, countInc, List.filter_append, isIncEv]

theorem countInc_deferRecover (evs : List Ev) (e : Option GoErr) (m : String) (d : Bool) :
    countInc (deferRecover evs e m d) = countInc evs := by
  cases d <;> simp [deferRecover, countInc, List.filter_append, isIncEv]

theorem countDec_deferNormal (evs : List Ev) (st : Nat) (e : Option GoErr) (d : Bool) :
    countDec (deferNormal evs st e d) = countDec evs + (if d then 1 else 0) := by
  cases d <;> simp [deferNormal, countDec, List.filter_append, isDecEv]

theorem countDec_deferRecover (evs : List Ev) (e : Option GoErr) (m : String) (d : Bool) :
    countDec (deferRecover evs e m d) = countDec evs + (if d then 1 else 0) := by
  cases d <;> simp [deferRecover, countDec, List.filter_append, isDecEv]

/-! ## Claim theorems: the request wrapper -/

/-- C1: for every request handled by the function returned from
`Server.Handle` — rejected at admission, completed normally, completed
with a handler-returned error, or panicked (in the handler, in the
serializer, in `gzip.NewReader`, or in the final write) — exactly one
log record is emitted: `WriteHTTPLog` is invoked exactly once. -/
theorem handle_exactly_one_log (env : ReqEnv) : countLog (Handle env) = 1 := by
  rcases env with ⟨stopped, outcome, ae, gerr, werr⟩
  cases stopped with
  | true => simp [Handle, countLog_deferNormal, countLog, List.filter, isLogEv]
  | false =>
    cases outcome with
    | panics m =>
      simp [Handle, countLog_deferRecover, countLog, List.filter, isLogEv]
    | ret r =>
      rcases r with ⟨body, st, hs, e⟩
      cases body with
      | bNil => simp [Handle, countLog_deferNormal, countLog, List.filter, isLogEv]
      | bStr bs =>
        simp only [Handle]
        repeat' split
        all_goals
          simp_all [countLog_deferNormal, countLog_deferRecover, countLog,
            List.filter, isLogEv]
      | bBytes bs =>
        simp only [Handle]
        repeat' split
        all_goals
          simp_all [countLog_deferNormal, countLog_deferRecover, countLog,
            List.filter, isLogEv]
      | bOther mar =>
        cases mar with
        | error m =>
          simp [Handle, countLog_deferRecover, countLog, List.filter, isLogEv]
        | ok bs =>
          simp only [Handle]
          repeat' split
          all_goals
            simp_all [countLog_deferNormal, countLog_deferRecover, countLog,
              List.filter, isLogEv]

/-- C9: the `openConnections` counter is incremented exactly once iff
the request is admitted (the `stopped` flag is clear), and decremented
exactly once on completion of an admitted request, on every path
including panic recovery; a rejected request touches the counter not
at all, so the net per-request change is always zero. -/
theorem handle_connection_counting (env : ReqEnv) :
    countInc (Handle env) = (if env.stopped then 0 else 1) ∧
    countDec (Handle env) = countInc (Handle env) := by
  rcases env with ⟨stopped, outcome, ae, gerr, werr⟩
  cases stopped with
  | true =>
    simp [Handle, countInc_deferNormal, countDec_deferNormal, countInc, countDec,
      List.filter, isIncEv, isDecEv]
  | false =>
    cases outcome with
    | panics m =>
      simp [Handle, countInc_deferRecover, countDec_deferRecover, countInc, countDec,
        List.filter, isIncEv, isDecEv]
    | ret r =>
      rcases r with ⟨body, st, hs, e⟩
      cases body with
      | bNil =>
        simp [Handle, countInc_deferNormal, countDec_deferNormal, countInc, countDec,
          List.filter, isIncEv, isDecEv]
      | bStr bs =>
        simp only [Handle]
        repeat' split
        all_goals
          simp_all [countInc_deferNormal, countInc_deferRecover, countDec_deferNormal,
            countDec_deferRecover, countInc, countDec, List.filter, isIncEv, isDecEv]
      | bBytes bs =>
        simp only [Handle]
        repeat' split
        all_goals
          simp_all [countInc_deferNormal, countInc_deferRecover, countDec_deferNormal,
            countDec_deferRecover, countInc, countDec, List.filter, isIncEv, isDecEv]
      | bOther mar =>
        cases mar with
        | error m =>
          simp [Handle, countInc_deferRecover, countDec_deferRecover, countInc, countDec,
            List.filter, isIncEv, isDecEv]
        | ok bs =>
          simp only [Handle]
          repeat' split
          all_goals
            simp_all [countInc_deferNormal, countInc_deferRecover, countDec_deferNormal,
              countDec_deferRecover, countInc, countDec, List.filter, isIncEv, isDecEv]

/-- C6 (code bug): for a request arriving after `Shutdown` has set the
`stopped` flag, the embedded `Server.Handle` produces only the single
log record with status 503 and a nil error: the handler is never
invoked and the connection counter is untouched, as the claim states,
but — contradicting the claim and `Handle`'s own doc comment ("Handle
responds with StatusServiceUnavailable (503)") — no response header is
ever written on this path (the underlying `net/http` default status
goes to the client), and the log record carries a nil error instead of
the fixed "server shutting down" error that the previous revisions of
this path passed to `WriteHTTPLog`. -/
theorem stopped_request_events (out : HandlerOutcome) (ae : String)
    (g w : Option String) :
    Handle ⟨true, out, ae, g, w⟩ = [Ev.writeLog 503 none] := rfl

/-- C5 counterexample: a request whose handler returns the error
`"handler boom"` and whose response body then fails to serialize
(panicking with `"json: unsupported type"`).  The two messages are
merged in order — handler first, then panic — but the combined error
carries no call-stack at all (`fmt.Errorf` wipes it, as the source's
own TODO remarks), refuting the claim that the combined error carries
the stack captured nearest the panic site. -/
theorem merged_error_stack_wiped :
    Handle ⟨false,
        HandlerOutcome.ret ⟨GoBody.bOther (Except.error "json: unsupported type"),
          200, [], some ⟨"handler boom", none⟩⟩, "", none, none⟩ =
      [Ev.incConn, Ev.callHandler, Ev.writeHeader 500,
       Ev.writeLog 500
         (some ⟨"handler: handler boom\npanic: json: unsupported type", none⟩),
       Ev.decConn] := rfl

/-- C5 amended: a recovered panic forces status 500 and is logged; a
panic with no pending handler error is logged as a Reportable Error
carrying the call-stack captured at the recovery point adjacent to the
panic; when a handler error is also pending, the combined message
preserves both texts in deterministic order (handler first, then
panic) but the combined error carries no call-stack (the merge wipes
it). -/
theorem panic_forces_500_and_merges (emsg pmsg ae : String) :
    (Handle ⟨false, HandlerOutcome.panics pmsg, ae, none, none⟩ =
      [Ev.incConn, Ev.callHandler, Ev.writeHeader 500,
       Ev.writeLog 500 (some ⟨pmsg, some Site.panicRecovery⟩), Ev.decConn]) ∧
    (Handle ⟨false,
        HandlerOutcome.ret ⟨GoBody.bOther (Except.error pmsg), 200, [],
          some ⟨emsg, none⟩⟩, ae, none, none⟩ =
      [Ev.incConn, Ev.callHandler, Ev.writeHeader 500,
       Ev.writeLog 500
         (some ⟨"handler: " ++ emsg ++ "\npanic: " ++ pmsg, none⟩),
       Ev.decConn]) :=
  ⟨rfl, rfl⟩

/-- C10: `Server.newEntry` never fails to produce an entry.  When the
`NewLogEntry` field is unset, the call installs the fallback-logger
factory into the field and returns a fallback entry (two recursion
steps always suffice); when the field holds a factory `f` — including
every call after the first — the call returns `f ()` and leaves the
field unchanged. -/
theorem newEntry_always_returns_entry :
    (∀ fuel : Nat, newEntryGo none (fuel + 2) =
       some (EntryImpl.fallback, some fun _ => EntryImpl.fallback)) ∧
    (∀ (f : Unit → EntryImpl) (fuel : Nat),
       newEntryGo (some f) (fuel + 1) = some (f (), some f)) :=
  ⟨fun _ => rfl, fun _ _ => rfl⟩

/-! ## Claim theorems: the compression decision -/

set_option maxRecDepth 40000 in
/-- C3 counterexample: a 1001-byte non-gzip body of an allow-listed
content type, requested with `Accept-Encoding: gzip;q=0`.  The
negotiator `acceptsGzip` rejects gzip for this header, yet the
dispatcher compresses the body, because `Server.Handle` tests
`strings.Contains(acceptEncoding, "gzip")` rather than the
negotiator's predicate — refuting the claimed "if and only if". -/
theorem gz_compress_despite_negotiator_reject :
    (gzDecision (List.replicate 1001 97) "gzip;q=0"
        [("Content-Type", "application/json")]).1 = WriteMode.compressGz ∧
    acceptsGzip "gzip;q=0" = false := by
  constructor
  · rfl
  · decide

/-- C3 amended: a non-empty body that does not begin with the gzip
magic bytes is compressed on the fly iff all three hold: the request's
`Accept-Encoding` header contains the substring `"gzip"` (the
dispatcher's own test, which is not the negotiator's `acceptsGzip`
predicate), the body length exceeds `gzipMinLength`, and the
response's `Content-Type` is in the `gzipTypes` allow-list; otherwise
the body is sent uncompressed. -/
theorem gz_compress_iff_contains (body : List Nat) (ae : String) (h : Headers)
    (hm : bodyHasGzipMagicHeader body = false) :
    ((gzDecision body ae h).1 = WriteMode.compressGz ↔
      goContains ae "gzip" = true ∧ gzipMinLength < body.length ∧
      hdrGet h "Content-Type" ∈ gzipTypes) ∧
    ((gzDecision body ae h).1 = WriteMode.compressGz ∨
      (gzDecision body ae h).1 = WriteMode.plain) := by
  simp only [gzDecision, hm, Bool.false_eq_true, if_false]
  split
  · next hc => simp [hc]
  · next hc => simp [hc]

/-- Witness for `gz_compress_iff_contains` at a concrete input: a
2-byte non-magic body with no gzip in the header is sent plain. -/
theorem gz_compress_iff_contains_witness :
    bodyHasGzipMagicHeader [104, 105] = false ∧
    (((gzDecision [104, 105] "deflate" []).1 = WriteMode.compressGz ↔
        goContains "deflate" "gzip" = true ∧
        gzipMinLength < List.length [104, 105] ∧
        hdrGet [] "Content-Type" ∈ gzipTypes) ∧
      ((gzDecision [104, 105] "deflate" []).1 = WriteMode.compressGz ∨
        (gzDecision [104, 105] "deflate" []).1 = WriteMode.plain)) :=
  ⟨by decide, gz_compress_iff_contains [104, 105] "deflate" [] (by decide)⟩

/-- C4 counterexample: a gzip-magic body requested with
`Accept-Encoding: gzip;q=0`.  The negotiator `acceptsGzip` rejects
gzip for this header — per the claim the body should be decompressed
and `Content-Encoding` removed — yet the dispatcher sends the body
as-is with `Content-Encoding: gzip`, because it tests substring
containment instead of the negotiator's predicate. -/
theorem gz_magic_passthrough_despite_negotiator_reject :
    gzDecision [31, 139, 8, 0] "gzip;q=0" [] =
      (WriteMode.plain, [("Content-Encoding", "gzip")]) ∧
    acceptsGzip "gzip;q=0" = false := by
  constructor
  · rfl
  · decide

/-- C4 amended: for every non-empty body beginning with the gzip magic
bytes `0x1F 0x8B`, whatever the response's content type: when the
request's `Accept-Encoding` header does not contain the substring
`"gzip"` (the dispatcher's acceptance test), the body is decompressed
on the way out and any previously set `Content-Encoding` header is
removed; when it does contain `"gzip"`, the body is sent as-is with
`Content-Encoding: gzip`.  Gzip-magic detection thus has priority
over the MIME allow-list policy. -/
theorem gz_magic_priority (body : List Nat) (ae : String) (h : Headers)
    (hm : bodyHasGzipMagicHeader body = true) :
    (goContains ae "gzip" = false →
      gzDecision body ae h = (WriteMode.gunzip, hdrDel h "Content-Encoding")) ∧
    (goContains ae "gzip" = true →
      gzDecision body ae h = (WriteMode.plain, hdrSet h "Content-Encoding" "gzip")) := by
  constructor <;> intro hc <;> simp [gzDecision, hm, hc]

/-- Witness for `gz_magic_priority` at a concrete input: a gzip-magic
body with a non-allow-listed content type, for a client that does not
accept gzip, is decompressed and loses its `Content-Encoding` header. -/
theorem gz_magic_priority_witness :
    bodyHasGzipMagicHeader [31, 139, 8] = true ∧
    ((goContains "deflate" "gzip" = false →
        gzDecision [31, 139, 8] "deflate"
            [("Content-Type", "application/pdf"), ("Content-Encoding", "gzip")] =
          (WriteMode.gunzip,
            hdrDel [("Content-Type", "application/pdf"), ("Content-Encoding", "gzip")]
              "Content-Encoding")) ∧
      (goContains "deflate" "gzip" = true →
        gzDecision [31, 139, 8] "deflate"
            [("Content-Type", "application/pdf"), ("Content-Encoding", "gzip")] =
          (WriteMode.plain,
            hdrSet [("Content-Type", "application/pdf"), ("Content-Encoding", "gzip")]
              "Content-Encoding" "gzip"))) :=
  ⟨by decide,
   gz_magic_priority [31, 139, 8] "deflate"
     [("Content-Type", "application/pdf"), ("Content-Encoding", "gzip")] (by decide)⟩

/-! ## Lemmas about the `acceptsGzip` byte scanner -/

theorem gzScan_out (s : List Nat) (fuel i j : Nat) (h : s.length ≤ i) :
    gzScan s fuel i j = false := by
  cases fuel with
  | zero => rfl
  | succ f => simp [gzScan, Nat.not_lt.mpr h]

theorem gzScan_fuel_irrel (s : List Nat) :
    ∀ f1 f2 i j, s.length - i ≤ f1 → s.length - i ≤ f2 →
      gzScan s f1 i j = gzScan s f2 i j := by
  intro f1
  induction f1 with
  | zero =>
    intro f2 i j h1 h2
    have hi : s.length ≤ i := by omega
    rw [gzScan_out s 0 i j hi, gzScan_out s f2 i j hi]
  | succ f ih =>
    intro f2 i j h1 h2
    by_cases hi : i < s.length
    · cases f2 with
      | zero => exact absurd hi (by omega)
      | succ f2p =>
        simp only [gzScan]
        rw [if_pos hi, if_pos hi]
        by_cases hb : s.getD i 32 = 44 ∨ i = s.length - 1
        · rw [if_pos hb, if_pos hb]
          by_cases hl : i = s.length - 1
          · rw [if_pos hl, ih f2p (i + 1 + 1) (i + 1 + 1) (by omega) (by omega)]
          · rw [if_neg hl, ih f2p (i + 1) (i + 1) (by omega) (by omega)]
        · rw [if_neg hb, if_neg hb, ih f2p (i + 1) j (by omega) (by omega)]
    · rw [gzScan_out s (f + 1) i j (by omega), gzScan_out s f2 i j (by omega)]

/-- Scanning from `i` with no comma byte strictly before the final
index reaches the final segment, whose end is pushed one past the end
of the list. -/
theorem gzScan_to_end (s : List Nat) :
    ∀ fuel i j, i < s.length →
      (∀ m, i ≤ m → m + 1 < s.length → s.getD m 32 ≠ 44) →
      s.length - i ≤ fuel →
      gzScan s fuel i j = (gzSeg s j s.length).getD false := by
  intro fuel
  induction fuel with
  | zero => intro i j hi hnc hf; omega
  | succ f ih =>
    intro i j hi hnc hf
    by_cases hie : i = s.length - 1
    · have hb : s.getD i 32 = 44 ∨ i = s.length - 1 := Or.inr hie
      simp only [gzScan]
      rw [if_pos hi, if_pos hb, if_pos hie]
      have he : i + 1 = s.length := by omega
      rw [he, gzScan_out s f (s.length + 1) (s.length + 1) (by omega)]
    · have hnci : s.getD i 32 ≠ 44 := hnc i (le_refl i) (by omega)
      have hb : ¬ (s.getD i 32 = 44 ∨ i = s.length - 1) := by
        push_neg
        exact ⟨hnci, hie⟩
      simp only [gzScan]
      rw [if_pos hi, if_neg hb]
      exact ih (i + 1) j (by omega) (fun m h1 h2 => hnc m (by omega) h2) (by omega)

/-- Scanning from `i` with no comma byte strictly before position `p`,
where `s[p] = ','` and `p` is not the last index, processes the
segment `[j, p)` and, if it does not return, continues right after the
comma. -/
theorem gzScan_to_comma (s : List Nat) (p : Nat) (hp : s.getD p 32 = 44)
    (hpl : p + 1 < s.length) :
    ∀ fuel i j, i ≤ p → (∀ m, i ≤ m → m < p → s.getD m 32 ≠ 44) →
      s.length - i ≤ fuel →
      gzScan s fuel i j =
        (gzSeg s j p).getD (gzScan s (s.length + 1) (p + 1) (p + 1)) := by
  intro fuel
  induction fuel with
  | zero => intro i j hip hnc hf; omega
  | succ f ih =>
    intro i j hip hnc hf
    have hi : i < s.length := by omega
    by_cases hie : i = p
    · subst hie
      have hb : s.getD i 32 = 44 ∨ i = s.length - 1 := Or.inl hp
      have hne : ¬ i = s.length - 1 := by omega
      conv_lhs => rw [gzScan]
      rw [if_pos hi, if_pos hb, if_neg hne]
      show (gzSeg s j i).getD (gzScan s f (i + 1) (i + 1)) =
        (gzSeg s j i).getD (gzScan s (s.length + 1) (i + 1) (i + 1))
      rw [gzScan_fuel_irrel s f (s.length + 1) (i + 1) (i + 1) (by omega) (by omega)]
    · have hnci : s.getD i 32 ≠ 44 := hnc i (le_refl i) (by omega)
      have hb : ¬ (s.getD i 32 = 44 ∨ i = s.length - 1) := by
        push_neg
        exact ⟨hnci, by omega⟩
      conv_lhs => rw [gzScan]
      rw [if_pos hi, if_neg hb]
      exact ih (i + 1) j (by omega) (fun m h1 h2 => hnc m (by omega) h2) (by omega)

theorem drop_len_add {α : Type} (p t : List α) (k : Nat) :
    (p ++ t).drop (p.length + k) = t.drop k := by
  induction p with
  | nil => simp
  | cons a q ih => simp [Nat.succ_add, ih]

theorem getD_len_add {α : Type} (p t : List α) (k : Nat) (d : α) :
    (p ++ t).getD (p.length + k) d = t.getD k d := by
  induction p with
  | nil => simp
  | cons a q ih => simpa [Nat.succ_add, List.getD] using ih

theorem skipSpacesIdx_shift (p t : List Nat) (k e : Nat) :
    skipSpacesIdx (p ++ t) (p.length + k) (p.length + e) =
      p.length + skipSpacesIdx t k e := by
  simp [skipSpacesIdx, drop_len_add, Nat.add_sub_add_left, Nat.add_assoc]

theorem gzSeg_shift (p t : List Nat) (j e : Nat) :
    gzSeg (p ++ t) (p.length + j) (p.length + e) = gzSeg t j e := by
  simp only [gzSeg, skipSpacesIdx_shift, drop_len_add, getD_len_add,
    Nat.add_assoc, Nat.add_lt_add_iff_left, Nat.add_left_cancel_iff,
    Nat.add_le_add_iff_left, Nat.add_sub_add_left]

theorem countLeadingSpaces_take (n : Nat) (b : Nat) (l : List Nat) (h : b ≠ 32) :
    countLeadingSpaces ((b :: l).take n) = 0 := by
  cases n with
  | zero => rfl
  | succ n => simp [List.take_succ_cons, countLeadingSpaces, h]

theorem skipSpacesIdx_head_ne (s : List Nat) (k e : Nat) (b : Nat) (l : List Nat)
    (hd : s.drop k = b :: l) (hb : b ≠ 32) : skipSpacesIdx s k e = k := by
  simp [skipSpacesIdx, hd, countLeadingSpaces_take, hb]

theorem gzScan_shift (p t : List Nat) :
    ∀ fuel i j, gzScan (p ++ t) fuel (p.length + i) (p.length + j) =
      gzScan t fuel i j := by
  intro fuel
  induction fuel with
  | zero => intro i j; rfl
  | succ f ih =>
    intro i j
    by_cases hi : i < t.length
    · have hiL : p.length + i < (p ++ t).length := by
        simp [List.length_append]
        omega
      have hlast : (p.length + i = (p ++ t).length - 1) ↔ (i = t.length - 1) := by
        simp [List.length_append]
        omega
      simp only [gzScan]
      rw [if_pos hiL, if_pos hi]
      by_cases hb : t.getD i 32 = 44 ∨ i = t.length - 1
      · have hbL : (p ++ t).getD (p.length + i) 32 = 44 ∨
            p.length + i = (p ++ t).length - 1 := by
          rcases hb with hb | hb
          · exact Or.inl (by rw [getD_len_add]; exact hb)
          · exact Or.inr (hlast.mpr hb)
        rw [if_pos hbL, if_pos hb]
        by_cases hl : i = t.length - 1
        · rw [if_pos (hlast.mpr hl), if_pos hl]
          have e1 : p.length + i + 1 = p.length + (i + 1) := by omega
          have e2 : p.length + (i + 1) + 1 = p.length + (i + 1 + 1) := by omega
          rw [e1, e2, gzSeg_shift, ih]
        · rw [if_neg (fun hq => hl (hlast.mp hq)), if_neg hl]
          have e1 : p.length + i + 1 = p.length + (i + 1) := by omega
          rw [gzSeg_shift, e1, ih]
      · have hbL : ¬ ((p ++ t).getD (p.length + i) 32 = 44 ∨
            p.length + i = (p ++ t).length - 1) := by
          push_neg at hb ⊢
          exact ⟨by rw [getD_len_add]; exact hb.1, fun hq => hb.2 (hlast.mp hq)⟩
        rw [if_neg hbL, if_neg hb]
        have e1 : p.length + i + 1 = p.length + (i + 1) := by omega
        rw [e1, ih]
    · rw [gzScan_out t (f + 1) i j (by omega),
        gzScan_out (p ++ t) (f + 1) (p.length + i) (p.length + j)
          (by simp [List.length_append]; omega)]

/-! ## Characters, whitespace and UTF-8 encoding -/

theorem trimLeft_eq_self (s : List Char) (h : ∀ c ∈ s, goIsSpace c = false) :
    trimLeft s = s := by
  cases s with
  | nil => rfl
  | cons c cs => simp [trimLeft, h c (List.mem_cons_self c cs)]

theorem trimSpace_eq_self (s : List Char) (h : ∀ c ∈ s, goIsSpace c = false) :
    trimSpace s = s := by
  rw [trimSpace, trimLeft_eq_self s h,
    trimLeft_eq_self s.reverse (fun c hc => h c (List.mem_reverse.mp hc)),
    List.reverse_reverse]

theorem char_toNat_inj {c d : Char} (h : c.toNat = d.toNat) : c = d := by
  rcases c with ⟨⟨cv⟩, hc⟩
  rcases d with ⟨⟨dv⟩, hd⟩
  simp only [Char.toNat] at h
  have : cv = dv := BitVec.toNat_injective h
  subst this
  rfl

theorem char_toNat_ne {c d : Char} (h : c ≠ d) : c.toNat ≠ d.toNat :=
  fun hq => h (char_toNat_inj hq)

theorem goIsSpace_false_toNat_ne_32 {c : Char} (h : goIsSpace c = false) :
    c.toNat ≠ 32 := by
  intro hq
  have : c = ' ' := char_toNat_inj hq
  subst this
  exact absurd h (by decide)

/-- `utf8Encode` is a single byte equal to the scalar value for ASCII,
and a non-empty list of bytes `≥ 128` otherwise. -/
theorem utf8Encode_cases (c : Char) :
    (c.toNat < 128 ∧ utf8Encode c = [c.toNat]) ∨
    (128 ≤ c.toNat ∧ utf8Encode c ≠ [] ∧ ∀ x ∈ utf8Encode c, 128 ≤ x) := by
  by_cases h1 : c.toNat < 0x80
  · left
    exact ⟨h1, by simp [utf8Encode, h1]⟩
  · right
    refine ⟨by omega, ?_⟩
    by_cases h2 : c.toNat < 0x800
    · simp only [utf8Encode, if_neg h1, if_pos h2]
      refine ⟨by simp, ?_⟩
      intro x hx
      simp only [List.mem_cons, List.not_mem_nil, or_false] at hx
      rcases hx with hx | hx <;> omega
    · by_cases h3 : c.toNat < 0x10000
      · simp only [utf8Encode, if_neg h1, if_neg h2, if_pos h3]
        refine ⟨by simp, ?_⟩
        intro x hx
        simp only [List.mem_cons, List.not_mem_nil, or_false] at hx
        rcases hx with hx | hx | hx <;> omega
      · simp only [utf8Encode, if_neg h1, if_neg h2, if_neg h3]
        refine ⟨by simp, ?_⟩
        intro x hx
        simp only [List.mem_cons, List.not_mem_nil, or_false] at hx
        rcases hx with hx | hx | hx | hx <;> omega

theorem utf8Encode_ne_nil (c : Char) : utf8Encode c ≠ [] := by
  rcases utf8Encode_cases c with ⟨_, h⟩ | ⟨_, h, _⟩
  · simp [h]
  · exact h

theorem utf8Bytes_cons (c : Char) (l : List Char) :
    utf8Bytes (c :: l) = utf8Encode c ++ utf8Bytes l := by
  simp [utf8Bytes]

theorem utf8Bytes_append (l1 l2 : List Char) :
    utf8Bytes (l1 ++ l2) = utf8Bytes l1 ++ utf8Bytes l2 := by
  simp [utf8Bytes]

theorem utf8Bytes_ne_nil (l : List Char) (h : l ≠ []) : utf8Bytes l ≠ [] := by
  cases l with
  | nil => exact absurd rfl h
  | cons c cs =>
    rw [utf8Bytes_cons]
    simp [utf8Encode_ne_nil c]

/-- An ASCII byte value occurs in a character's UTF-8 encoding only if
the character is that ASCII character. -/
theorem ascii_not_mem_utf8Encode (c : Char) (b : Nat) (hb : b < 128)
    (hne : c.toNat ≠ b) : b ∉ utf8Encode c := by
  rcases utf8Encode_cases c with ⟨_, h⟩ | ⟨_, _, h⟩
  · rw [h]
    simp [Ne.symm hne]
  · intro hmem
    have := h b hmem
    omega

theorem ascii_not_mem_utf8Bytes (l : List Char) (b : Nat) (hb : b < 128)
    (h : ∀ d ∈ l, d.toNat ≠ b) : b ∉ utf8Bytes l := by
  induction l with
  | nil => simp [utf8Bytes]
  | cons c cs ih =>
    rw [utf8Bytes_cons]
    intro hmem
    rcases List.mem_append.mp hmem with hm | hm
    · exact ascii_not_mem_utf8Encode c b hb (h c (List.mem_cons_self c cs)) hm
    · exact ih (fun d hd => h d (List.mem_cons_of_mem c hd)) hm

theorem getD_ne_of_not_mem (l : List Nat) (m b d : Nat) (hbm : b ∉ l)
    (hd : d ≠ b) : l.getD m d ≠ b := by
  by_cases hm : m < l.length
  · rw [List.getD_eq_getElem l d hm]
    exact fun hq => hbm (hq ▸ List.getElem_mem hm)
  · rw [List.getD_eq_default l d (by omega)]
    exact hd

/-- The first byte of a character's UTF-8 encoding avoids any ASCII
byte value the character itself is not. -/
theorem utf8_head_avoid (c : Char) :
    ∃ b0 bs, utf8Encode c = b0 :: bs ∧
      ∀ a : Nat, a < 128 → c.toNat ≠ a → b0 ≠ a := by
  rcases utf8Encode_cases c with ⟨_, h⟩ | ⟨_, hne, h⟩
  · exact ⟨c.toNat, [], h, fun a _ hca => hca⟩
  · rcases he : utf8Encode c with _ | ⟨b0, bs⟩
    · exact absurd he hne
    · refine ⟨b0, bs, rfl, fun a ha _ => ?_⟩
      have : 128 ≤ b0 := h b0 (by rw [he]; exact List.mem_cons_self b0 bs)
      omega

/-! ## Acceptance implies a delimited `gzip` token -/

theorem countLeadingSpaces_lt : ∀ (l : List Nat) (n : Nat),
    n < countLeadingSpaces l → l.getD n 32 = 32
  | [], n, h => by simp [countLeadingSpaces] at h
  | b :: bs, 0, h => by
    by_cases hb : b = 32
    · simpa using hb
    · simp [countLeadingSpaces, hb] at h
  | b :: bs, n + 1, h => by
    by_cases hb : b = 32
    · simp only [countLeadingSpaces, if_pos hb] at h
      simpa [List.getD] using countLeadingSpaces_lt bs n (by omega)
    · simp [countLeadingSpaces, hb] at h

theorem countLeadingSpaces_le_length : ∀ l : List Nat, countLeadingSpaces l ≤ l.length
  | [] => le_refl 0
  | b :: bs => by
    by_cases hb : b = 32
    · simp only [countLeadingSpaces, if_pos hb, List.length_cons]
      exact Nat.succ_le_succ (countLeadingSpaces_le_length bs)
    · simp [countLeadingSpaces, hb]

theorem skipSpacesIdx_ge (s : List Nat) (k e : Nat) : k ≤ skipSpacesIdx s k e :=
  Nat.le_add_right k _

theorem skipSpacesIdx_le (s : List Nat) (k e : Nat) (h : k ≤ e) :
    skipSpacesIdx s k e ≤ e := by
  have h1 := countLeadingSpaces_le_length ((s.drop k).take (e - k))
  have h2 : ((s.drop k).take (e - k)).length ≤ e - k := by
    simp [List.length_take]
  simp only [skipSpacesIdx]
  omega

/-- Every byte the `skipSpaces` loop stepped over is a space. -/
theorem skipSpacesIdx_spaces (s : List Nat) (k e idx : Nat) (h1 : k ≤ idx)
    (h2 : idx < skipSpacesIdx s k e) : s.getD idx 32 = 32 := by
  have hcnt : idx - k < countLeadingSpaces ((s.drop k).take (e - k)) := by
    simp only [skipSpacesIdx] at h2
    omega
  have hc := countLeadingSpaces_lt ((s.drop k).take (e - k)) (idx - k) hcnt
  have hlen : idx - k < ((s.drop k).take (e - k)).length :=
    lt_of_lt_of_le hcnt (countLeadingSpaces_le_length _)
  have hsl : idx < s.length := by
    have := hlen
    simp only [List.length_take, List.length_drop] at this
    omega
  rw [List.getD_eq_getElem _ _ hlen, List.getElem_take, List.getElem_drop] at hc
  rw [List.getD_eq_getElem s 32 hsl]
  have hidx : k + (idx - k) = idx := by omega
  rw [← hc]
  congr 1
  omega

/-- Case analysis of an accepting segment: the four bytes `gzip` sit
right after the skipped leading spaces and are followed by the
segment end, a comma, a space or a semicolon. -/
theorem gzSeg_true_cases (b : List Nat) (j e : Nat) (_hje : j ≤ e)
    (_hel : e ≤ b.length) (hbound : e = b.length ∨ b.getD e 32 = 44)
    (h : gzSeg b j e = some true) :
    ∃ k, j ≤ k ∧ k + 4 ≤ e ∧ (b.drop k).take 4 = [103, 122, 105, 112] ∧
      (∀ idx, j ≤ idx → idx < k → b.getD idx 32 = 32) ∧
      (k + 4 = b.length ∨ b.getD (k + 4) 32 = 44 ∨ b.getD (k + 4) 32 = 32 ∨
        b.getD (k + 4) 32 = 59) := by
  simp only [gzSeg] at h
  split at h
  · exact absurd h (by simp)
  · split at h
    · exact absurd h (by simp)
    · next hle hgz =>
      have hk4 : skipSpacesIdx b j e + 4 ≤ e := by omega
      have htake : (b.drop (skipSpacesIdx b j e)).take 4 = [103, 122, 105, 112] :=
        not_ne_iff.mp hgz
      have hsp : ∀ idx, j ≤ idx → idx < skipSpacesIdx b j e → b.getD idx 32 = 32 :=
        fun idx h1 h2 => skipSpacesIdx_spaces b j e idx h1 h2
      have hm_ge : skipSpacesIdx b j e + 4 ≤
          skipSpacesIdx b (skipSpacesIdx b j e + 4) e :=
        skipSpacesIdx_ge b _ e
      split at h
      · next he4 =>
        refine ⟨skipSpacesIdx b j e, skipSpacesIdx_ge b j e, hk4, htake, hsp, ?_⟩
        rcases hbound with hb | hb
        · exact Or.inl (by omega)
        · exact Or.inr (Or.inl (by rw [he4]; exact hb))
      · split at h
        · next hcom =>
          refine ⟨skipSpacesIdx b j e, skipSpacesIdx_ge b j e, hk4, htake, hsp, ?_⟩
          rcases Nat.eq_or_lt_of_le hm_ge with hm | hm
          · exact Or.inr (Or.inl (by rw [hm]; exact hcom))
          · exact Or.inr (Or.inr (Or.inl
              (skipSpacesIdx_spaces b _ e _ (le_refl _) hm)))
        · split at h
          · exact absurd h (by simp)
          · next hcom hsemi =>
            refine ⟨skipSpacesIdx b j e, skipSpacesIdx_ge b j e, hk4, htake, hsp, ?_⟩
            rcases Nat.eq_or_lt_of_le hm_ge with hm | hm
            · exact Or.inr (Or.inr (Or.inr (by rw [hm]; exact not_ne_iff.mp hsemi)))
            · exact Or.inr (Or.inr (Or.inl
                (skipSpacesIdx_spaces b _ e _ (le_refl _) hm)))

/-- An accepting segment yields a delimited `gzip` token in the whole
byte list, given that the segment start sits at the beginning or right
after a comma. -/
theorem delimited_of_seg (b : List Nat) (j e : Nat) (hje : j ≤ e)
    (hel : e ≤ b.length) (hbound : e = b.length ∨ b.getD e 32 = 44)
    (hinv : j = 0 ∨ (0 < j ∧ b.getD (j - 1) 32 = 44))
    (hseg : gzSeg b j e = some true) : delimitedGzip b = true := by
  obtain ⟨k, hjk, hk4, htake, hsp, hright⟩ := gzSeg_true_cases b j e hje hel hbound hseg
  have hleft : k = 0 ∨ b.getD (k - 1) 32 = 44 ∨ b.getD (k - 1) 32 = 32 := by
    rcases Nat.eq_zero_or_pos k with hk0 | hk0
    · exact Or.inl hk0
    · rcases Nat.eq_or_lt_of_le hjk with hjk2 | hjk2
      · rcases hinv with hj0 | ⟨hj1, hj2⟩
        · omega
        · exact Or.inr (Or.inl (by rw [← hjk2]; exact hj2))
      · exact Or.inr (Or.inr (hsp (k - 1) (by omega) (by omega)))
  rw [delimitedGzip, List.any_eq_true]
  refine ⟨k, List.mem_range.mpr (by omega), ?_⟩
  simp only [Bool.and_eq_true, Bool.or_eq_true, beq_iff_eq]
  exact ⟨⟨htake, by tauto⟩, by tauto⟩

/-- If the scan accepts, the trimmed header's bytes contain a
delimited `gzip` token. -/
theorem gzScan_true_delimited (b : List Nat) :
    ∀ fuel i j, j ≤ i → (j = 0 ∨ (0 < j ∧ b.getD (j - 1) 32 = 44)) →
      gzScan b fuel i j = true → delimitedGzip b = true := by
  intro fuel
  induction fuel with
  | zero => intro i j _ _ h; exact absurd h (by simp [gzScan])
  | succ f ih =>
    intro i j hji hinv h
    simp only [gzScan] at h
    split at h
    · next hi =>
      split at h
      · next hb =>
        by_cases hl : i = b.length - 1
        · rw [if_pos hl] at h
          rcases hseg : gzSeg b j (i + 1) with _ | bb
          · rw [hseg, Option.getD_none] at h
            rw [gzScan_out b f (i + 1 + 1) (i + 1 + 1) (by omega)] at h
            exact absurd h (by simp)
          · rw [hseg, Option.getD_some] at h
            subst h
            exact delimited_of_seg b j (i + 1) (by omega) (by omega)
              (Or.inl (by omega)) hinv hseg
        · have hcom : b.getD i 32 = 44 := by
            rcases hb with hb | hb
            · exact hb
            · exact absurd hb hl
          rw [if_neg hl] at h
          rcases hseg : gzSeg b j i with _ | bb
          · rw [hseg, Option.getD_none] at h
            exact ih (i + 1) (i + 1) (le_refl _)
              (Or.inr ⟨by omega, by simpa using hcom⟩) h
          · rw [hseg, Option.getD_some] at h
            subst h
            exact delimited_of_seg b j i (by omega) (by omega)
              (Or.inr hcom) hinv hseg
      · next hb =>
        exact ih (i + 1) j (by omega) hinv h
    · exact absurd h (by simp)

/-- If `acceptsGzip` accepts a header, the trimmed header's bytes
contain a comma-separated segment whose coding token is exactly
`gzip`. -/
theorem acceptsGzip_true_delimited (a : String) (h : acceptsGzip a = true) :
    delimitedGzip (utf8Bytes (trimSpace a.toList)) = true := by
  simp only [acceptsGzip] at h
  split at h
  · exact absurd h (by simp)
  · exact gzScan_true_delimited _ _ 0 0 (le_refl 0) (Or.inl rfl) h

theorem goIsSpace_false_ne_space {c : Char} (h : goIsSpace c = false) : c ≠ ' ' := by
  intro hq
  subst hq
  exact absurd h (by decide)

/-- A single-segment header whose token has `gzip` as a strict prefix
— continued by any non-space character other than `','` and `';'` —
is rejected, whatever follows. -/
theorem acceptsGzip_longer_token_false (c : Char) (r : List Char)
    (hsp : goIsSpace c = false) (hc1 : c ≠ ',') (hc2 : c ≠ ';')
    (hr : ∀ d ∈ r, goIsSpace d = false ∧ d ≠ ',') :
    acceptsGzip ⟨'g' :: 'z' :: 'i' :: 'p' :: c :: r⟩ = false := by
  have hall : ∀ d ∈ ('g' :: 'z' :: 'i' :: 'p' :: c :: r), goIsSpace d = false := by
    intro d hd
    simp only [List.mem_cons] at hd
    rcases hd with h | h | h | h | h | h
    · subst h; decide
    · subst h; decide
    · subst h; decide
    · subst h; decide
    · subst h; exact hsp
    · exact (hr d h).1
  obtain ⟨b0, bs, hb0eq, hb0av⟩ := utf8_head_avoid c
  have hb032 : b0 ≠ 32 := hb0av 32 (by omega) (goIsSpace_false_toNat_ne_32 hsp)
  have hb044 : b0 ≠ 44 := hb0av 44 (by omega) (char_toNat_ne hc1)
  have hb059 : b0 ≠ 59 := hb0av 59 (by omega) (char_toNat_ne hc2)
  have hencpos : 0 < (utf8Encode c).length :=
    List.length_pos.mpr (utf8Encode_ne_nil c)
  simp only [acceptsGzip]
  rw [show (String.mk ('g' :: 'z' :: 'i' :: 'p' :: c :: r)).toList =
    'g' :: 'z' :: 'i' :: 'p' :: c :: r from rfl]
  rw [trimSpace_eq_self _ hall]
  have hB : utf8Bytes ('g' :: 'z' :: 'i' :: 'p' :: c :: r) =
      103 :: 122 :: 105 :: 112 :: (utf8Encode c ++ utf8Bytes r) := by
    simp [utf8Bytes_cons, show utf8Encode 'g' = [103] from rfl,
      show utf8Encode 'z' = [122] from rfl, show utf8Encode 'i' = [105] from rfl,
      show utf8Encode 'p' = [112] from rfl]
  rw [hB]
  have hlen : (103 :: 122 :: 105 :: 112 :: (utf8Encode c ++ utf8Bytes r)).length =
      4 + (utf8Encode c).length + (utf8Bytes r).length := by
    simp
    omega
  have hnomem : (44 : Nat) ∉ 103 :: 122 :: 105 :: 112 ::
      (utf8Encode c ++ utf8Bytes r) := by
    intro hmem
    simp only [List.mem_cons] at hmem
    rcases hmem with h | h | h | h | h
    · omega
    · omega
    · omega
    · omega
    · rcases List.mem_append.mp h with h | h
      · exact ascii_not_mem_utf8Encode c 44 (by omega) (char_toNat_ne hc1) h
      · exact ascii_not_mem_utf8Bytes r 44 (by omega)
          (fun d hd => char_toNat_ne (hr d hd).2) h
  rw [if_neg (by simp)]
  rw [gzScan_to_end _ _ 0 0 (by simp) (fun m _ _ =>
    getD_ne_of_not_mem _ m 44 32 hnomem (by omega)) (by omega)]
  have hk : skipSpacesIdx (103 :: 122 :: 105 :: 112 ::
      (utf8Encode c ++ utf8Bytes r)) 0
      (103 :: 122 :: 105 :: 112 :: (utf8Encode c ++ utf8Bytes r)).length = 0 :=
    skipSpacesIdx_head_ne _ 0 _ 103 _ rfl (by omega)
  have hdrop4 : (103 :: 122 :: 105 :: 112 ::
      (utf8Encode c ++ utf8Bytes r)).drop 4 = b0 :: (bs ++ utf8Bytes r) := by
    rw [show (103 :: 122 :: 105 :: 112 ::
      (utf8Encode c ++ utf8Bytes r)).drop 4 = utf8Encode c ++ utf8Bytes r from rfl,
      hb0eq]
    simp
  have hm : skipSpacesIdx (103 :: 122 :: 105 :: 112 ::
      (utf8Encode c ++ utf8Bytes r)) 4
      (103 :: 122 :: 105 :: 112 :: (utf8Encode c ++ utf8Bytes r)).length = 4 :=
    skipSpacesIdx_head_ne _ 4 _ b0 _ hdrop4 hb032
  have hgd4 : (103 :: 122 :: 105 :: 112 ::
      (utf8Encode c ++ utf8Bytes r)).getD 4 32 = b0 := by
    rw [show (103 :: 122 :: 105 :: 112 ::
      (utf8Encode c ++ utf8Bytes r)).getD 4 32 =
      (utf8Encode c ++ utf8Bytes r).getD 0 32 from rfl, hb0eq]
    rfl
  simp only [gzSeg, hk, Nat.zero_add, hm, hgd4]
  rw [if_neg (by rw [hlen]; omega)]
  rw [if_neg (show ¬ ((103 :: 122 :: 105 :: 112 ::
    (utf8Encode c ++ utf8Bytes r)).drop 0).take 4 ≠ [103, 122, 105, 112]
    from fun hq => hq rfl)]
  rw [if_neg (by rw [hlen]; omega)]
  rw [if_neg hb044, if_pos hb059]
  rfl

/-- C2: `acceptsGzip` returns false on the empty string; on every
string whose trimmed bytes contain no `gzip` token (no occurrence of
the bytes `gzip` delimited on the left by the string start, a comma
or a space, and on the right by the string end, a comma, a space or a
`;` parameter); and on every single-segment header whose token merely
has `gzip` as a strict prefix of a longer token, e.g. `"gzippy"`,
`"gzippy, deflate"`, `"x-gzip"`, `"identity, gzipp, deflate"`.  It
returns true for `"gzip"`, `"gzip, deflate"`, `"deflate, gzip"` and
`"gzip;q=0.8"`, and false for `"gzip;q=0"` and `"gzip;q=0.000"`. -/
theorem acceptsGzip_negotiator_cases :
    acceptsGzip "" = false ∧
    (∀ a : String, delimitedGzip (utf8Bytes (trimSpace a.toList)) = false →
      acceptsGzip a = false) ∧
    (∀ (c : Char) (r : List Char), goIsSpace c = false → c ≠ ',' → c ≠ ';' →
      (∀ d ∈ r, goIsSpace d = false ∧ d ≠ ',') →
      acceptsGzip ⟨'g' :: 'z' :: 'i' :: 'p' :: c :: r⟩ = false) ∧
    acceptsGzip "gzippy" = false ∧
    acceptsGzip "gzippy, deflate" = false ∧
    acceptsGzip "x-gzip" = false ∧
    acceptsGzip "identity, gzipp, deflate" = false ∧
    acceptsGzip "gzip" = true ∧
    acceptsGzip "gzip, deflate" = true ∧
    acceptsGzip "deflate, gzip" = true ∧
    acceptsGzip "gzip;q=0.8" = true ∧
    acceptsGzip "gzip;q=0" = false ∧
    acceptsGzip "gzip;q=0.000" = false := by
  refine ⟨by decide, ?_, acceptsGzip_longer_token_false, by decide, by decide,
    by decide, by decide, by decide, by decide, by decide, by decide, by decide,
    by decide⟩
  intro a ha
  cases hval : acceptsGzip a with
  | false => rfl
  | true => rw [acceptsGzip_true_delimited a hval] at ha; exact absurd ha (by simp)

/-- Witness for `acceptsGzip_negotiator_cases` at concrete inputs:
the no-token case at `"x-deflate"` (whose trimmed bytes carry no
delimited `gzip` token) and the strict-prefix case at `"gzippy"`
(token `gzip` continued by `'p'`, `'y'`). -/
theorem acceptsGzip_negotiator_cases_witness :
    acceptsGzip "x-deflate" = false ∧
    acceptsGzip ⟨'g' :: 'z' :: 'i' :: 'p' :: 'p' :: ['y']⟩ = false :=
  ⟨acceptsGzip_negotiator_cases.2.1 "x-deflate" (by decide),
   acceptsGzip_negotiator_cases.2.2.1 'p' ['y'] (by decide) (by decide) (by decide)
     (by decide)⟩

/-- A first comma-delimited segment that is at least 4 bytes long, has
no spaces or commas, and whose first four bytes are not `gzip`, is
skipped: the scan result is that of the remaining header. -/
theorem acceptsGzip_skip_nongzip_segment (p r : List Char)
    (hp4 : 4 ≤ (utf8Bytes p).length)
    (hpg : (utf8Bytes p).take 4 ≠ [103, 122, 105, 112])
    (hpok : ∀ d ∈ p, goIsSpace d = false ∧ d ≠ ',')
    (hrne : r ≠ []) (hrok : ∀ d ∈ r, goIsSpace d = false) :
    acceptsGzip ⟨p ++ ',' :: r⟩ = acceptsGzip ⟨r⟩ := by
  have hall : ∀ d ∈ (p ++ ',' :: r), goIsSpace d = false := by
    intro d hd
    rcases List.mem_append.mp hd with hd | hd
    · exact (hpok d hd).1
    · rcases List.mem_cons.mp hd with hd | hd
      · subst hd; decide
      · exact hrok d hd
  obtain ⟨c0, p0, rfl⟩ : ∃ c0 p0, p = c0 :: p0 := by
    cases p with
    | nil => simp [utf8Bytes] at hp4
    | cons c0 p0 => exact ⟨c0, p0, rfl⟩
  obtain ⟨b0, bs, hb0eq, hb0av⟩ := utf8_head_avoid c0
  have hb032 : b0 ≠ 32 := hb0av 32 (by omega)
    (goIsSpace_false_toNat_ne_32 (hpok c0 (List.mem_cons_self c0 p0)).1)
  have hPc : utf8Bytes (c0 :: p0) = b0 :: (bs ++ utf8Bytes p0) := by
    rw [utf8Bytes_cons, hb0eq]
    rfl
  have hRne : utf8Bytes r ≠ [] := utf8Bytes_ne_nil r hrne
  have hRpos : 0 < (utf8Bytes r).length := List.length_pos.mpr hRne
  have hBeq : utf8Bytes ((c0 :: p0) ++ ',' :: r) =
      utf8Bytes (c0 :: p0) ++ 44 :: utf8Bytes r := by
    rw [utf8Bytes_append, utf8Bytes_cons]
    rfl
  have hrtrim : trimSpace r = r := trimSpace_eq_self r hrok
  simp only [acceptsGzip]
  rw [show (String.mk ((c0 :: p0) ++ ',' :: r)).toList = (c0 :: p0) ++ ',' :: r
    from rfl]
  rw [show (String.mk r).toList = r from rfl]
  rw [trimSpace_eq_self _ hall, hrtrim, hBeq]
  have hlenB : (utf8Bytes (c0 :: p0) ++ 44 :: utf8Bytes r).length =
      (utf8Bytes (c0 :: p0)).length + 1 + (utf8Bytes r).length := by
    simp
    omega
  rw [if_neg (by rw [hlenB]; omega), if_neg (by omega)]
  have hq44 : (utf8Bytes (c0 :: p0) ++ 44 :: utf8Bytes r).getD
      (utf8Bytes (c0 :: p0)).length 32 = 44 := by
    simpa using getD_len_add (utf8Bytes (c0 :: p0)) (44 :: utf8Bytes r) 0 32
  have hnc : ∀ m, 0 ≤ m → m < (utf8Bytes (c0 :: p0)).length →
      (utf8Bytes (c0 :: p0) ++ 44 :: utf8Bytes r).getD m 32 ≠ 44 := by
    intro m _ hm
    rw [List.getD_append _ _ _ m hm]
    exact getD_ne_of_not_mem _ m 44 32
      (ascii_not_mem_utf8Bytes _ 44 (by omega)
        (fun d hd => char_toNat_ne (hpok d hd).2)) (by omega)
  rw [gzScan_to_comma _ (utf8Bytes (c0 :: p0)).length hq44 (by rw [hlenB]; omega)
    _ 0 0 (by omega) hnc (by omega)]
  have hseg : gzSeg (utf8Bytes (c0 :: p0) ++ 44 :: utf8Bytes r) 0
      (utf8Bytes (c0 :: p0)).length = none := by
    have hdrop : (utf8Bytes (c0 :: p0) ++ 44 :: utf8Bytes r).drop 0 =
        b0 :: ((bs ++ utf8Bytes p0) ++ 44 :: utf8Bytes r) := by
      rw [List.drop_zero, hPc]
      rfl
    have hk := skipSpacesIdx_head_ne (utf8Bytes (c0 :: p0) ++ 44 :: utf8Bytes r)
      0 (utf8Bytes (c0 :: p0)).length _ _ hdrop hb032
    simp only [gzSeg, hk, Nat.zero_add]
    rw [if_neg (by omega)]
    rw [if_pos ?tk]
    case tk =>
      rw [List.drop_zero, List.take_append_of_le_length hp4]
      exact hpg
  rw [hseg, Option.getD_none]
  have hstep : gzScan (utf8Bytes (c0 :: p0) ++ 44 :: utf8Bytes r)
      ((utf8Bytes (c0 :: p0) ++ 44 :: utf8Bytes r).length + 1)
      ((utf8Bytes (c0 :: p0)).length + 1) ((utf8Bytes (c0 :: p0)).length + 1) =
      gzScan (utf8Bytes r)
        ((utf8Bytes (c0 :: p0) ++ 44 :: utf8Bytes r).length + 1) 0 0 := by
    have hsh := gzScan_shift (utf8Bytes (c0 :: p0) ++ [44]) (utf8Bytes r)
      ((utf8Bytes (c0 :: p0) ++ 44 :: utf8Bytes r).length + 1) 0 0
    have hlen44 : (utf8Bytes (c0 :: p0) ++ [44]).length =
        (utf8Bytes (c0 :: p0)).length + 1 := by simp
    rw [hlen44, Nat.add_zero, List.append_assoc, List.singleton_append] at hsh
    exact hsh
  rw [hstep]
  exact gzScan_fuel_irrel _ _ _ 0 0 (by rw [hlenB]; omega) (by omega)

/-- A first segment of fewer than 4 bytes is not skipped: the scanner
returns `false` for the whole header at once, even when a later
segment is exactly `gzip`.  Stated for two arbitrary non-space,
non-comma ASCII characters followed by `,gzip`. -/
theorem acceptsGzip_short_first_segment (c1 c2 : Char)
    (ha1 : c1.toNat < 128) (ha2 : c2.toNat < 128)
    (h1 : goIsSpace c1 = false) (h2 : goIsSpace c2 = false)
    (hc1 : c1 ≠ ',') (hc2 : c2 ≠ ',') :
    acceptsGzip ⟨[c1, c2, ',', 'g', 'z', 'i', 'p']⟩ = false := by
  have he1 : utf8Encode c1 = [c1.toNat] := by
    rcases utf8Encode_cases c1 with ⟨_, h⟩ | ⟨hge, _, _⟩
    · exact h
    · omega
  have he2 : utf8Encode c2 = [c2.toNat] := by
    rcases utf8Encode_cases c2 with ⟨_, h⟩ | ⟨hge, _, _⟩
    · exact h
    · omega
  have hall : ∀ d ∈ [c1, c2, ',', 'g', 'z', 'i', 'p'], goIsSpace d = false := by
    intro d hd
    simp only [List.mem_cons, List.not_mem_nil, or_false] at hd
    rcases hd with rfl | rfl | rfl | rfl | rfl | rfl | rfl
    · exact h1
    · exact h2
    all_goals decide
  have ht : utf8Bytes [',', 'g', 'z', 'i', 'p'] = [44, 103, 122, 105, 112] := by
    decide
  have hB : utf8Bytes [c1, c2, ',', 'g', 'z', 'i', 'p'] =
      [c1.toNat, c2.toNat, 44, 103, 122, 105, 112] := by
    rw [utf8Bytes_cons, utf8Bytes_cons, he1, he2, ht]
    rfl
  have hn1 : c1.toNat ≠ 44 := char_toNat_ne hc1
  have hn2 : c2.toNat ≠ 44 := char_toNat_ne hc2
  simp only [acceptsGzip]
  rw [show (String.mk [c1, c2, ',', 'g', 'z', 'i', 'p']).toList =
    [c1, c2, ',', 'g', 'z', 'i', 'p'] from rfl]
  rw [trimSpace_eq_self _ hall, hB]
  rw [if_neg (by simp)]
  rw [gzScan_to_comma [c1.toNat, c2.toNat, 44, 103, 122, 105, 112] 2 rfl
    (by simp) _ 0 0 (by omega) ?hnc (by omega)]
  case hnc =>
    intro m _ hm
    interval_cases m
    · exact hn1
    · exact hn2
  have hk : skipSpacesIdx [c1.toNat, c2.toNat, 44, 103, 122, 105, 112] 0 2 = 0 :=
    skipSpacesIdx_head_ne _ 0 2 c1.toNat _ rfl (goIsSpace_false_toNat_ne_32 h1)
  have hseg : gzSeg [c1.toNat, c2.toNat, 44, 103, 122, 105, 112] 0 2 =
      some false := by
    simp only [gzSeg, hk]
    rw [if_pos (by omega)]
  rw [hseg]
  rfl

/-- C7 counterexample: the spec says a non-matching segment is
skipped and scanning proceeds, but a segment shorter than 4 bytes
aborts the whole scan, so `br,gzip` is rejected. -/
theorem acceptsGzip_br_gzip_false : acceptsGzip "br,gzip" = false := by decide

/-- C7: how `acceptsGzip` treats a non-matching first segment.  A
first segment at least 4 bytes long whose first four bytes are not
`gzip` is skipped: the result is that of the rest of the header
(`deflate,gzip`, `deflate, gzip`, `br;q=1,gzip` are accepted).  A
first segment shorter than 4 bytes is not skipped: the scan returns
`false` immediately, even with a later exact `gzip` segment.  A
segment whose first four bytes are `gzip` is never skipped: it
decides the result at once (`gzippy,gzip` is rejected).  Lengths are
byte lengths of the UTF-8 encoding (`éé,gzip` is accepted: the
two-character first segment is 4 bytes). -/
theorem acceptsGzip_segment_skip_rule :
    (∀ (c1 c2 : Char), c1.toNat < 128 → c2.toNat < 128 →
      goIsSpace c1 = false → goIsSpace c2 = false → c1 ≠ ',' → c2 ≠ ',' →
      acceptsGzip ⟨[c1, c2, ',', 'g', 'z', 'i', 'p']⟩ = false) ∧
    (∀ (p r : List Char), 4 ≤ (utf8Bytes p).length →
      (utf8Bytes p).take 4 ≠ [103, 122, 105, 112] →
      (∀ d ∈ p, goIsSpace d = false ∧ d ≠ ',') →
      r ≠ [] → (∀ d ∈ r, goIsSpace d = false) →
      acceptsGzip ⟨p ++ ',' :: r⟩ = acceptsGzip ⟨r⟩) ∧
    acceptsGzip "deflate,gzip" = true ∧
    acceptsGzip "deflate, gzip" = true ∧
    acceptsGzip "br;q=1,gzip" = true ∧
    acceptsGzip "gzippy,gzip" = false ∧
    acceptsGzip "éé,gzip" = true :=
  ⟨acceptsGzip_short_first_segment, acceptsGzip_skip_nongzip_segment,
   by decide, by decide, by decide, by decide, by decide⟩

/-- Witness for C7 at concrete inputs: `b`,`r` for the short-segment
universal and `deflate` before `gzip` for the skip universal. -/
theorem acceptsGzip_segment_skip_rule_witness :
    acceptsGzip ⟨['b', 'r', ',', 'g', 'z', 'i', 'p']⟩ = false ∧
    acceptsGzip ⟨['d', 'e', 'f', 'l', 'a', 't', 'e'] ++
      ',' :: ['g', 'z', 'i', 'p']⟩ = acceptsGzip ⟨['g', 'z', 'i', 'p']⟩ :=
  ⟨acceptsGzip_segment_skip_rule.1 'b' 'r' (by decide) (by decide) (by decide)
    (by decide) (by decide) (by decide),
   acceptsGzip_segment_skip_rule.2.1 ['d', 'e', 'f', 'l', 'a', 't', 'e']
    ['g', 'z', 'i', 'p'] (by decide) (by decide) (by decide) (by decide)
    (by decide)⟩

/-- The q-value byte test of `gzSeg` on one character's UTF-8 bytes:
a byte other than `0` and `.` occurs iff the character itself is
neither `0` nor `.` (multibyte characters use only bytes ≥ 128). -/
theorem utf8Encode_any_q (d : Char) :
    (utf8Encode d).any (fun b => b ≠ 48 && b ≠ 46) =
      (decide (d ≠ '0') && decide (d ≠ '.')) := by
  by_cases h0 : d = '0'
  · subst h0
    decide
  by_cases h6 : d = '.'
  · subst h6
    decide
  rw [decide_eq_true h0, decide_eq_true h6]
  rcases utf8Encode_cases d with ⟨hlt, he⟩ | ⟨hge, hne, hb⟩
  · rw [he]
    simp only [List.any_cons, List.any_nil, Bool.or_false]
    rw [decide_eq_true (show d.toNat ≠ 48 from char_toNat_ne h0),
      decide_eq_true (show d.toNat ≠ 46 from char_toNat_ne h6)]
  · rcases hE : utf8Encode d with _ | ⟨b0, bs⟩
    · exact absurd hE hne
    · have h128 : 128 ≤ b0 := hb b0 (by rw [hE]; exact List.mem_cons_self b0 bs)
      simp only [List.any_cons]
      rw [decide_eq_true (by omega : b0 ≠ 48), decide_eq_true (by omega : b0 ≠ 46)]
      rfl

/-- The q-value byte test over a character list's UTF-8 bytes equals
the character-level test. -/
theorem utf8Bytes_any_eq (t : List Char) :
    (utf8Bytes t).any (fun b => b ≠ 48 && b ≠ 46) =
      t.any (fun d => decide (d ≠ '0') && decide (d ≠ '.')) := by
  induction t with
  | nil => rfl
  | cons c cs ih =>
    rw [utf8Bytes_cons, List.any_append, utf8Encode_any_q, ih, List.any_cons]

/-- The general quality-value rule of `acceptsGzip`: for a sole
`gzip;q=` segment followed by any non-empty space-free, comma-free
text, the header is accepted iff some character of the text is
neither `0` nor `.`. -/
theorem acceptsGzip_q_text (t : List Char) (hne : t ≠ [])
    (hok : ∀ d ∈ t, goIsSpace d = false ∧ d ≠ ',') :
    acceptsGzip ⟨'g' :: 'z' :: 'i' :: 'p' :: ';' :: 'q' :: '=' :: t⟩ =
      t.any (fun d => decide (d ≠ '0') && decide (d ≠ '.')) := by
  have hall : ∀ d ∈ ('g' :: 'z' :: 'i' :: 'p' :: ';' :: 'q' :: '=' :: t),
      goIsSpace d = false := by
    intro d hd
    simp only [List.mem_cons] at hd
    rcases hd with rfl | rfl | rfl | rfl | rfl | rfl | rfl | hd
    · decide
    · decide
    · decide
    · decide
    · decide
    · decide
    · decide
    · exact (hok d hd).1
  have hB : utf8Bytes ('g' :: 'z' :: 'i' :: 'p' :: ';' :: 'q' :: '=' :: t) =
      103 :: 122 :: 105 :: 112 :: 59 :: 113 :: 61 :: utf8Bytes t := by
    simp only [utf8Bytes_cons]
    rfl
  have hTne : utf8Bytes t ≠ [] := utf8Bytes_ne_nil t hne
  have hTpos : 0 < (utf8Bytes t).length := List.length_pos.mpr hTne
  have hlen : (103 :: 122 :: 105 :: 112 :: 59 :: 113 :: 61 ::
      utf8Bytes t).length = (utf8Bytes t).length + 7 := by
    simp
  have h44T : (44 : Nat) ∉ utf8Bytes t :=
    ascii_not_mem_utf8Bytes t 44 (by omega) (fun d hd => char_toNat_ne (hok d hd).2)
  have hnc : ∀ m, 0 ≤ m →
      m + 1 < (103 :: 122 :: 105 :: 112 :: 59 :: 113 :: 61 ::
        utf8Bytes t).length →
      (103 :: 122 :: 105 :: 112 :: 59 :: 113 :: 61 ::
        utf8Bytes t).getD m 32 ≠ 44 := by
    intro m _ _
    by_cases hm : m < 7
    · interval_cases m
      · exact (by decide : (103 : Nat) ≠ 44)
      · exact (by decide : (122 : Nat) ≠ 44)
      · exact (by decide : (105 : Nat) ≠ 44)
      · exact (by decide : (112 : Nat) ≠ 44)
      · exact (by decide : (59 : Nat) ≠ 44)
      · exact (by decide : (113 : Nat) ≠ 44)
      · exact (by decide : (61 : Nat) ≠ 44)
    · rw [show m = 7 + (m - 7) by omega,
        show (103 :: 122 :: 105 :: 112 :: 59 :: 113 :: 61 :: utf8Bytes t) =
          [103, 122, 105, 112, 59, 113, 61] ++ utf8Bytes t from rfl,
        show (7 : Nat) + (m - 7) =
          [103, 122, 105, 112, 59, 113, 61].length + (m - 7) from rfl,
        getD_len_add]
      exact getD_ne_of_not_mem _ _ 44 32 h44T (by omega)
  simp only [acceptsGzip]
  rw [show (String.mk ('g' :: 'z' :: 'i' :: 'p' :: ';' :: 'q' :: '=' :: t)).toList
    = 'g' :: 'z' :: 'i' :: 'p' :: ';' :: 'q' :: '=' :: t from rfl]
  rw [trimSpace_eq_self _ hall, hB]
  rw [if_neg (by rw [hlen]; omega)]
  rw [gzScan_to_end _ _ 0 0 (by rw [hlen]; omega) hnc (by omega)]
  rw [hlen]
  have hk : skipSpacesIdx (103 :: 122 :: 105 :: 112 :: 59 :: 113 :: 61 ::
      utf8Bytes t) 0 ((utf8Bytes t).length + 7) = 0 :=
    skipSpacesIdx_head_ne _ 0 _ 103 _ rfl (by decide)
  have hm4 : skipSpacesIdx (103 :: 122 :: 105 :: 112 :: 59 :: 113 :: 61 ::
      utf8Bytes t) 4 ((utf8Bytes t).length + 7) = 4 :=
    skipSpacesIdx_head_ne _ 4 _ 59 _ rfl (by decide)
  have hq5 : skipSpacesIdx (103 :: 122 :: 105 :: 112 :: 59 :: 113 :: 61 ::
      utf8Bytes t) (4 + 1) ((utf8Bytes t).length + 7) = 4 + 1 :=
    skipSpacesIdx_head_ne _ (4 + 1) _ 113 _ rfl (by decide)
  simp only [gzSeg, hk, Nat.zero_add, hm4, hq5]
  rw [show (103 :: 122 :: 105 :: 112 :: 59 :: 113 :: 61 ::
      utf8Bytes t).getD 4 32 = 59 from rfl,
    show (103 :: 122 :: 105 :: 112 :: 59 :: 113 :: 61 ::
      utf8Bytes t).getD (4 + 1) 32 = 113 from rfl,
    show (103 :: 122 :: 105 :: 112 :: 59 :: 113 :: 61 ::
      utf8Bytes t).getD (4 + 1 + 1) 32 = 61 from rfl]
  rw [if_neg (by omega), if_neg (fun h => h rfl), if_neg (by omega),
    if_neg (by decide), if_neg (by decide), if_neg (by omega),
    if_neg (by decide)]
  rw [show (103 :: 122 :: 105 :: 112 :: 59 :: 113 :: 61 ::
    utf8Bytes t).drop (4 + 1 + 2) = utf8Bytes t from rfl]
  rw [show (utf8Bytes t).length + 7 - (4 + 1 + 2) = (utf8Bytes t).length
    from by omega]
  rw [List.take_length, utf8Bytes_any_eq]
  rfl

/-- C8 counterexample: the spec's fail-closed clause says an
unparsable q value is rejected, but the scanner accepts on the first
q-value byte that is not `0` or `.`. -/
theorem acceptsGzip_q_garbage_accepted : acceptsGzip "gzip;q=x" = true := by
  decide

/-- C8: the quality-value rule of `acceptsGzip`.  For any non-empty
space-free, comma-free q-value text, the header `gzip;q=`‑text is
accepted iff some character of the text is neither `0` nor `.` —
numeric zero in any spelling (`0`, `00`, `0.000`) is rejected, any
other text (numeric or garbage such as `x` or `0x`) is accepted, and
an empty or missing value (`gzip;q=`, `gzip;q`) is rejected. -/
theorem acceptsGzip_q_value_rule :
    (∀ t : List Char, t ≠ [] → (∀ d ∈ t, goIsSpace d = false ∧ d ≠ ',') →
      acceptsGzip ⟨'g' :: 'z' :: 'i' :: 'p' :: ';' :: 'q' :: '=' :: t⟩ =
        t.any (fun d => decide (d ≠ '0') && decide (d ≠ '.'))) ∧
    acceptsGzip "gzip;q=0" = false ∧
    acceptsGzip "gzip;q=00" = false ∧
    acceptsGzip "gzip;q=0.000" = false ∧
    acceptsGzip "gzip;q=0.5" = true ∧
    acceptsGzip "gzip;q=1" = true ∧
    acceptsGzip "gzip;q=x" = true ∧
    acceptsGzip "gzip;q=0x" = true ∧
    acceptsGzip "gzip;q=" = false ∧
    acceptsGzip "gzip;q" = false ∧
    acceptsGzip "identity,gzip;q=0.001" = true ∧
    acceptsGzip "identity,gzip;q=0.000" = false ∧
    acceptsGzip "br;q=1,gzip;q=0" = false :=
  ⟨acceptsGzip_q_text, by decide, by decide, by decide, by decide, by decide,
   by decide, by decide, by decide, by decide, by decide, by decide, by decide⟩

/-- Witness for C8 at concrete q-value texts `x` and `00`. -/
theorem acceptsGzip_q_value_rule_witness :
    acceptsGzip ⟨'g' :: 'z' :: 'i' :: 'p' :: ';' :: 'q' :: '=' :: ['x']⟩ =
      (['x'].any (fun d => decide (d ≠ '0') && decide (d ≠ '.'))) ∧
    acceptsGzip ⟨'g' :: 'z' :: 'i' :: 'p' :: ';' :: 'q' :: '=' :: ['0', '0']⟩ =
      (['0', '0'].any (fun d => decide (d ≠ '0') && decide (d ≠ '.'))) :=
  ⟨acceptsGzip_q_value_rule.1 ['x'] (by decide) (by decide),
   acceptsGzip_q_value_rule.1 ['0', '0'] (by decide) (by decide)⟩
